import Mathlib

/-!
# Exercise Cache & Fuzzy Search Engine — formal model

A shallow embedding of `src/utils/exerciseCache.ts`: the in-memory exercise
cache (paginated initialization, TTL-based freshness, clear/read operations)
and the fuzzy search engine (tokenization, synonym expansion, multi-field
weighted scoring, stable ranking, exact-match filters).

Modelling conventions:
* JavaScript strings are `List Char`; `toLowerCase`/`trim`/`includes`/
  `indexOf`/`split` are implemented below, character by character.
* JavaScript numbers are `ℚ` where fractional values can arise (the
  coverage penalty multiplies a score by `covered/total`) and `Int` for
  timestamps; this models the algebra of the scoring formula exactly.
* `Set` insertion (`new Set`, `Set.prototype.add`) is a list that appends an
  element only when absent, preserving insertion order, with `size` = length.
* Fallible operations return `Except`; a thrown JS error is `.error`.
-/

namespace HevyMcp

/-- JavaScript string model: a list of characters. -/
abbrev Str := List Char

/-- Model of `String.prototype.toLowerCase()` (character-wise lowercasing). -/
def lowerStr (s : Str) : Str := s.map Char.toLower

/-- Model of `String.prototype.trim()`: strip leading and trailing whitespace. -/
def trimStr (s : Str) : Str :=
  ((s.dropWhile Char.isWhitespace).reverse.dropWhile Char.isWhitespace).reverse

/-- Does `hay` start with `needle`? (used to model `includes`/`indexOf`). -/
def strStarts : Str → Str → Bool
  | [], _ => true
  | _ :: _, [] => false
  | a :: as, b :: bs => a == b && strStarts as bs

/-- Model of `hay.includes(needle)`: substring test. -/
def strIncludes : Str → Str → Bool
  | hay, needle =>
    if strStarts needle hay then true
    else match hay with
      | [] => false
      | _ :: t => strIncludes t needle

/-- Model of `hay.indexOf(needle)`: index of the first occurrence, `none` if absent. -/
def strIndexOf : Str → Str → Option Nat
  | hay, needle =>
    if strStarts needle hay then some 0
    else match hay with
      | [] => none
      | _ :: t => (strIndexOf t needle).map (· + 1)

/-- A regular-expression word character (`\w`): letter, digit or underscore. -/
def isWordChar (c : Char) : Bool := c.isAlphanum || c == '_'

/-- Case-insensitive `strStarts` (the word-boundary regex carries the `i`
flag). -/
def strStartsCI : Str → Str → Bool
  | [], _ => true
  | _ :: _, [] => false
  | a :: as, b :: bs => a.toLower == b.toLower && strStartsCI as bs

/-- Helper for `wordBoundary`: scan `hay` position by position, remembering
the previous character, and accept when `token` occurs here with a non-word
character (or the string edge) on both sides. -/
def wbAux (token : Str) : Option Char → Str → Bool
  | prev, hay =>
    (strStartsCI token hay
      && (match prev with
          | none => true
          | some c => !isWordChar c)
      && (match hay.drop token.length with
          | [] => true
          | c :: _ => !isWordChar c))
    || (match hay with
        | [] => false
        | c :: t => wbAux token (some c) t)

/-- Semantics of `new RegExp("\\b" + token + "\\b", "i").test(title)` for a
token made of word characters: `token` occurs in `title` (case-insensitively)
at a position whose neighbours on both sides are absent or non-word. -/
def wordBoundary (title token : Str) : Bool := wbAux token none title

/-- Model of the JavaScript `new RegExp("\\b" + token + "\\b", "i")`
constructor at `calculateSearchScore`: construction succeeds when `token`
consists only of word characters (then `\btoken\b` is a valid pattern), and
raises a `SyntaxError` otherwise — e.g. a token containing `(` yields the
invalid pattern `\b(\b` (unmatched group parenthesis). The theorems below
rely only on the word-character case succeeding and on the `(` case
raising. -/
def regexCtorOk (token : Str) : Bool := token.all isWordChar

/-- Model of `Set.prototype.add` on insertion-ordered string sets: append only
when absent. -/
def addJsSet (s : List Str) (x : Str) : List Str :=
  if s.contains x then s else s ++ [x]

/-- Model of `[...new Set(l)]`: deduplicate keeping the first occurrence of
each element, in insertion order. -/
def jsSetOf (l : List Str) : List Str := l.foldl addJsSet []

/-- JavaScript errors thrown by the search/read paths. -/
inductive JsErr where
  /-- Thrown as `Error("Exercise cache not initialized. Call initializeCache() first.")`. -/
  | notInitialized : JsErr
  /-- Thrown as a JavaScript regex-pattern error by the `RegExp` constructor. -/
  | badRegex : JsErr
deriving DecidableEq, Repr

/-- An exercise template record (`ExerciseTemplate`); every field the cache
reads through `?.` is optional. -/
structure ExerciseTemplate where
  title : Option Str := none
  type : Option Str := none
  primary_muscle_group : Option Str := none
  secondary_muscle_groups : Option (List Str) := none
deriving DecidableEq, Repr

/-- The module-level cache record. -/
structure ExerciseCache where
  exercises : List ExerciseTemplate
  lastUpdated : Int
  isInitialized : Bool
deriving DecidableEq, Repr

/-- The constant `CACHE_TTL = 1000 * 60 * 60 * 24` (24 hours in milliseconds). -/
def CACHE_TTL : Int := 1000 * 60 * 60 * 24

/-- The initial module state of the cache. -/
def initialCache : ExerciseCache := { exercises := [], lastUpdated := 0, isInitialized := false }

/-- The table `SEARCH_SYNONYMS`, in object-literal insertion order (the order
`Object.entries` iterates). -/
def SEARCH_SYNONYMS : List (Str × List Str) :=
  [ ("db".toList, ["dumbbell".toList, "dumbell".toList])
  , ("bb".toList, ["barbell".toList, "barbel".toList])
  , ("machine".toList, ["mach".toList, "assisted".toList])
  , ("cable".toList, ["cables".toList])
  , ("lat".toList, ["lats".toList, "lateral".toList])
  , ("bi".toList, ["bicep".toList, "biceps".toList])
  , ("tri".toList, ["tricep".toList, "triceps".toList])
  , ("leg".toList, ["legs".toList])
  , ("chest".toList, ["pec".toList, "pecs".toList, "pectoral".toList])
  , ("back".toList, ["lats".toList, "rear".toList])
  , ("shoulder".toList, ["shoulders".toList, "delt".toList, "delts".toList, "deltoid".toList]) ]

/-- Model of `expandTokensWithSynonyms`: start from the original tokens; for each
token and each synonym-table entry whose key or alias list matches it, push
the key and all its aliases; finally deduplicate via `new Set`. -/
def expandTokensWithSynonyms (tokens : List Str) : List Str :=
  jsSetOf (tokens ++ tokens.flatMap (fun token =>
    SEARCH_SYNONYMS.flatMap (fun e =>
      if token == e.1 || (e.2).contains token then e.1 :: e.2 else [])))

/-- State threaded through the scoring loop of `calculateSearchScore`:
the running score and the `originalTokenMatches` set. -/
structure ScoreState where
  score : ℚ
  matched : List Str
deriving DecidableEq, Repr

/-- One iteration of the `for (const token of expandedTokens)` loop in
`calculateSearchScore`, over the already-lowercased fields. Raises
`badRegex` when the title contains the token but the word-boundary regex
cannot be constructed from it. -/
def scoreStep (title typ primary : Str) (secondary : List Str) (tokens : List Str)
    (st : ScoreState) (token : Str) : Except JsErr ScoreState :=
  let isOriginalToken := tokens.contains token
  let titleHit := strIncludes title token
  if titleHit && !regexCtorOk token then
    .error JsErr.badRegex
  else
    let m1 := if titleHit && isOriginalToken then addJsSet st.matched token else st.matched
    let s1 := st.score +
      (if titleHit then
        (if wordBoundary title token then
          (if isOriginalToken then (100 : ℚ) else 60)
         else
          (if isOriginalToken then (50 : ℚ) else 30))
        + (match strIndexOf title token with
           | some 0 => (30 : ℚ)
           | some p => if p < 10 then (15 : ℚ) else 0
           | none => 0)
       else 0)
    let typeHit := strIncludes typ token
    let m2 := if typeHit && isOriginalToken then addJsSet m1 token else m1
    let s2 := s1 + (if typeHit then (if isOriginalToken then (40 : ℚ) else 25) else 0)
    let primaryHit := strIncludes primary token
    let m3 := if primaryHit && isOriginalToken then addJsSet m2 token else m2
    let s3 := s2 + (if primaryHit then (if isOriginalToken then (30 : ℚ) else 20) else 0)
    let secondaryHit := secondary.any (fun muscle => strIncludes muscle token)
    let m4 := if secondaryHit && isOriginalToken then addJsSet m3 token else m3
    let s4 := s3 + (if secondaryHit then (if isOriginalToken then (20 : ℚ) else 10) else 0)
    .ok ⟨s4, m4⟩

/-- The state after the scoring loop of `calculateSearchScore` (score before
the coverage adjustment, plus the set of matched original tokens). -/
def scoreLoop (e : ExerciseTemplate) (tokens : List Str) : Except JsErr ScoreState :=
  let title := lowerStr (e.title.getD [])
  let typ := lowerStr (e.type.getD [])
  let primaryMuscle := lowerStr (e.primary_muscle_group.getD [])
  let secondaryMuscles := (e.secondary_muscle_groups.getD []).map lowerStr
  (expandTokensWithSynonyms tokens).foldlM
    (scoreStep title typ primaryMuscle secondaryMuscles tokens) ⟨0, []⟩

/-- Model of `calculateSearchScore(exercise, tokens)`: loop over the expanded tokens,
then apply the coverage penalty (`score *= matched/total` when not all
original tokens matched), the full-coverage bonus (+50 when all matched and
more than one), and the exact-phrase bonus (+200 when the lowercased title
contains the tokens rejoined with single spaces). -/
def calculateSearchScore (e : ExerciseTemplate) (tokens : List Str) : Except JsErr ℚ := do
  let title := lowerStr (e.title.getD [])
  let st ← scoreLoop e tokens
  let matchedOriginalTokens := st.matched.length
  let originalTokenCount := tokens.length
  let score := st.score
  let score :=
    if matchedOriginalTokens < originalTokenCount then
      score * ((matchedOriginalTokens : ℚ) / (originalTokenCount : ℚ))
    else score
  let score :=
    if matchedOriginalTokens = originalTokenCount ∧ 1 < originalTokenCount then
      score + 50
    else score
  let fullQuery := List.intercalate [' '] tokens
  let score := if strIncludes title fullQuery then score + 200 else score
  .ok score

/-- Insert `x` into a list sorted descending by `key`, after every element
whose key is at least `key x`. -/
def insertTail (key : α → ℚ) (x : α) : List α → List α
  | [] => [x]
  | y :: ys => if key y < key x then x :: y :: ys else y :: insertTail key x ys

/-- Model of `Array.prototype.sort((a, b) => b.score - a.score)`: ECMAScript
requires this sort to be stable and consistent with the comparator, which for
a numeric key is exactly: descending by key, equal keys in original order.
Inserting the elements in order, each after all elements with a key at least
its own, realizes that specification. -/
def sortDesc (key : α → ℚ) (l : List α) : List α :=
  l.foldl (fun acc x => insertTail key x acc) []

/-- Model of `normalizedQuery.split(/\s+/).filter(t => t.length > 0)`: the maximal
runs of non-whitespace characters, in order. -/
def splitWs (s : Str) : List Str :=
  let p : List Str × Str := s.foldr (fun c acc =>
    if c.isWhitespace then
      (if acc.2.isEmpty then acc else (acc.2 :: acc.1, []))
    else (acc.1, c :: acc.2)) ([], [])
  if p.2.isEmpty then p.1 else p.2 :: p.1

/-- The optional filters of `searchExercises`. -/
structure SearchOptions where
  muscleGroup : Option Str := none
  exerciseType : Option Str := none

/-- The scoring branch of `searchExercises`: score every exercise, keep the
strictly positive scores, sort descending (stable), and drop the scores. -/
def scoredAndRanked (exercises : List ExerciseTemplate) (tokens : List Str) :
    Except JsErr (List ExerciseTemplate) := do
  let scoredResults ← exercises.mapM (fun e => do
    let s ← calculateSearchScore e tokens
    pure (e, s))
  pure ((sortDesc Prod.snd (scoredResults.filter (fun item => decide (0 < item.2)))).map
    Prod.fst)

/-- The predicate of the `options.muscleGroup` filter: primary or any
secondary muscle group equals the filter value, case-insensitively (absent
fields never match, as `?.` yields `undefined`). -/
def matchesMuscleGroup (mg : Str) (e : ExerciseTemplate) : Bool :=
  let normalizedMuscleGroup := lowerStr mg
  (match e.primary_muscle_group with
   | some p => lowerStr p == normalizedMuscleGroup
   | none => false)
  || (match e.secondary_muscle_groups with
      | some l => l.any (fun muscle => lowerStr muscle == normalizedMuscleGroup)
      | none => false)

/-- The `options.muscleGroup` filter pass of `searchExercises`. -/
def muscleGroupFilter (mg : Str) (results : List ExerciseTemplate) : List ExerciseTemplate :=
  results.filter (matchesMuscleGroup mg)

/-- The predicate of the `options.exerciseType` filter: the type equals the
filter value, case-insensitively. -/
def matchesExerciseType (t : Str) (e : ExerciseTemplate) : Bool :=
  match e.type with
  | some ty => lowerStr ty == lowerStr t
  | none => false

/-- The `options.exerciseType` filter pass of `searchExercises`. -/
def exerciseTypeFilter (t : Str) (results : List ExerciseTemplate) : List ExerciseTemplate :=
  results.filter (matchesExerciseType t)

/-- Model of `if (options.muscleGroup) ...`: the filter runs only when the option
is present and non-empty (the empty string is falsy in JavaScript). -/
def musclePass (mg : Option Str) (results : List ExerciseTemplate) : List ExerciseTemplate :=
  match mg with
  | some m => if m.isEmpty then results else muscleGroupFilter m results
  | none => results

/-- Model of `if (options.exerciseType) ...`, analogously. -/
def typePass (t : Option Str) (results : List ExerciseTemplate) : List ExerciseTemplate :=
  match t with
  | some ty => if ty.isEmpty then results else exerciseTypeFilter ty results
  | none => results

/-- The tokenization step of `searchExercises`:
`normalizedQuery.split(/\s+/).filter((t) => t.length > 0)`. -/
def tokenize (normalizedQuery : Str) : List Str :=
  (splitWs normalizedQuery).filter (fun t => decide (0 < t.length))

/-- The function `searchExercises` up to (and excluding) the two filter passes: the
initialization check, query normalization, and — for a non-empty query —
scoring, zero-score exclusion and ranking. -/
def searchCore (cache : ExerciseCache) (query : Str) : Except JsErr (List ExerciseTemplate) := do
  if !cache.isInitialized then
    throw JsErr.notInitialized
  let normalizedQuery := trimStr (lowerStr query)
  if normalizedQuery.isEmpty then
    pure cache.exercises
  else
    scoredAndRanked cache.exercises (tokenize normalizedQuery)

/-- Model of `searchExercises(query, options)` over an explicit cache state. Throws
`notInitialized` when the cache is not ready; otherwise normalizes the query,
scores and ranks when it is non-empty, and applies the muscle-group filter
then the exercise-type filter. -/
def searchExercises (cache : ExerciseCache) (query : Str) (options : SearchOptions) :
    Except JsErr (List ExerciseTemplate) := do
  let results ← searchCore cache query
  let results := musclePass options.muscleGroup results
  let results := typePass options.exerciseType results
  pure results

/-- Model of `getCachedExercises()`: the snapshot's items, or `notInitialized`. -/
def getCachedExercises (cache : ExerciseCache) : Except JsErr (List ExerciseTemplate) :=
  if !cache.isInitialized then .error JsErr.notInitialized else .ok cache.exercises

/-- Model of `clearCache()`: reset to the empty, not-ready state. -/
def clearCache (_cache : ExerciseCache) : ExerciseCache :=
  { exercises := [], lastUpdated := 0, isInitialized := false }

/-- One page of the paginated exercise-template endpoint. -/
structure PageResult where
  page_count : Option Nat := none
  exercise_templates : Option (List ExerciseTemplate) := none

/-- The page-fetch capability (`hevyClient.getExerciseTemplates` at the fixed
page size 100); an `.error` is a rejected promise carrying the error's
message. -/
abbrev FetchPage := Nat → Except String PageResult

/-- The `for (currentPage = 2; currentPage <= totalPages; currentPage++)`
loop: fetch the pages in order, appending each page's templates to the
accumulator; stop at the first failure. Returns the pages actually requested
(the observable network trace) alongside the outcome. -/
def fetchSeq (client : FetchPage) : List Nat → List ExerciseTemplate →
    List Nat × Except String (List ExerciseTemplate)
  | [], acc => ([], .ok acc)
  | p :: ps, acc =>
    match client p with
    | .error e => ([p], .error e)
    | .ok pageData =>
      let r := fetchSeq client ps (acc ++ pageData.exercise_templates.getD [])
      (p :: r.1, r.2)

/-- Model of `firstPageData.page_count || 1`: JavaScript `||` takes the fallback on
the falsy values `undefined` and `0`. -/
def totalPagesOf (firstPageData : PageResult) : Nat :=
  match firstPageData.page_count with
  | some n => if n == 0 then 1 else n
  | none => 1

/-- The body of the `try` block of `initializeCache`: fetch page 1, learn the
page count, then fetch pages `2..totalPages` sequentially. Returns the pages
requested and either all accumulated templates or the first failure. -/
def doRefresh (client : FetchPage) : List Nat × Except String (List ExerciseTemplate) :=
  match client 1 with
  | .error e => ([1], .error e)
  | .ok firstPageData =>
    let allExercises := firstPageData.exercise_templates.getD []
    let totalPages := totalPagesOf firstPageData
    let r := fetchSeq client (List.range' 2 (totalPages - 1)) allExercises
    (1 :: r.1, r.2)

/-- The wrapped message of the initialization error (`catch` block of
`initializeCache`). -/
def initErrorMessage (e : String) : String :=
  "Failed to initialize exercise cache: " ++ e

/-- Model of `initializeCache(hevyClient, forceRefresh)` over an explicit cache state.
`now` is `Date.now()` at entry (freshness check) and `commitTime` is
`Date.now()` at the cache update. Returns the new cache state, the trace of
pages requested from the client, and the outcome: on the fresh fast path no
page is requested and the state is untouched; on a successful refresh the
snapshot is replaced wholesale; on any page failure the state is untouched
and the error message wraps the cause. -/
def initializeCache (now commitTime : Int) (client : FetchPage) (forceRefresh : Bool)
    (cache : ExerciseCache) : ExerciseCache × List Nat × Except String Unit :=
  let cacheExpired := decide (now - cache.lastUpdated > CACHE_TTL)
  if cache.isInitialized && !cacheExpired && !forceRefresh then
    (cache, [], .ok ())
  else
    match doRefresh client with
    | (trace, .error e) => (cache, trace, .error (initErrorMessage e))
    | (trace, .ok allExercises) =>
      ({ exercises := allExercises, lastUpdated := commitTime, isInitialized := true },
        trace, .ok ())

/-! ## Specification-side definitions

The spec (§4.2 of `spec.md`) describes the relevance score as a sum of
independent per-token field scores followed by a coverage adjustment and a
phrase bonus. The following definitions transcribe that description; the
refinement theorems below compare them with the loop-based code embedding
`calculateSearchScore`. -/

/-- Whether `token` matches any scored field of the (already lowercased)
entry fields: title, type, primary muscle group, or some secondary muscle
group — each as a substring. -/
def fieldsMatch (title typ primary : Str) (secondary : List Str) (token : Str) : Bool :=
  strIncludes title token || strIncludes typ token || strIncludes primary token
    || secondary.any (fun muscle => strIncludes muscle token)

/-- Whether `token` matches any scored field of `e` (spec: "matched by any
field"). -/
def anyFieldMatch (e : ExerciseTemplate) (token : Str) : Bool :=
  fieldsMatch (lowerStr (e.title.getD [])) (lowerStr (e.type.getD []))
    (lowerStr (e.primary_muscle_group.getD []))
    ((e.secondary_muscle_groups.getD []).map lowerStr) token

/-- The spec's per-token score over lowercased fields: title substring hit
scores 100/60 (original/expansion-only) on a word boundary, else 50/30, plus
+30 for a first occurrence at index 0 or +15 before index 10; +40/+25 for a
type hit; +30/+20 for a primary hit; +20/+10 when some secondary muscle
group contains the token. -/
def tokenScore (title typ primary : Str) (secondary : List Str) (tokens : List Str)
    (token : Str) : ℚ :=
  let isOrig := tokens.contains token
  (if strIncludes title token then
    (if wordBoundary title token then
      (if isOrig then (100 : ℚ) else 60)
     else
      (if isOrig then (50 : ℚ) else 30))
    + (match strIndexOf title token with
       | some 0 => (30 : ℚ)
       | some p => if p < 10 then (15 : ℚ) else 0
       | none => 0)
   else 0)
  + (if strIncludes typ token then (if isOrig then (40 : ℚ) else 25) else 0)
  + (if strIncludes primary token then (if isOrig then (30 : ℚ) else 20) else 0)
  + (if secondary.any (fun muscle => strIncludes muscle token) then
      (if isOrig then (20 : ℚ) else 10) else 0)

/-- The spec's per-token score, over an entry. -/
def specTokenScore (e : ExerciseTemplate) (tokens : List Str) (token : Str) : ℚ :=
  tokenScore (lowerStr (e.title.getD [])) (lowerStr (e.type.getD []))
    (lowerStr (e.primary_muscle_group.getD []))
    ((e.secondary_muscle_groups.getD []).map lowerStr) tokens token

/-- The number of distinct original tokens that themselves match some scored
field of `e`. -/
def specCovered (e : ExerciseTemplate) (tokens : List Str) : Nat :=
  ((jsSetOf tokens).filter (fun t => anyFieldMatch e t)).length

/-- The spec's score formula: sum the per-token scores over the deduplicated
expanded token set; multiply by `covered/total` when `covered < total`; add
+50 when `covered = total > 1`; add +200 when the lowercased title contains
the original tokens rejoined with single spaces. -/
def specScore (e : ExerciseTemplate) (tokens : List Str) : ℚ :=
  let raw := ((expandTokensWithSynonyms tokens).map (specTokenScore e tokens)).sum
  let covered := specCovered e tokens
  let total := tokens.length
  let adjusted := if covered < total then raw * ((covered : ℚ) / (total : ℚ)) else raw
  let adjusted := if covered = total ∧ 1 < total then adjusted + 50 else adjusted
  if strIncludes (lowerStr (e.title.getD [])) (List.intercalate [' '] tokens) then
    adjusted + 200
  else adjusted

/-- All strings in the synonym table (keys and aliases). -/
def synonymUniverse : List Str :=
  SEARCH_SYNONYMS.flatMap (fun e => e.1 :: e.2)

/-! ## Concrete fixtures

Concrete records and cache states used by the scenario theorems and the
witnesses of the universally quantified theorems. -/

/-- The record `{title: "Barbell Bench Press", type: "barbell", primary: "chest"}`. -/
def bbEntry : ExerciseTemplate :=
  { title := some "Barbell Bench Press".toList
    type := some "barbell".toList
    primary_muscle_group := some "chest".toList }

/-- The record `{title: "Dumbbell Curl", type: "dumbbell", primary: "biceps"}`. -/
def dcEntry : ExerciseTemplate :=
  { title := some "Dumbbell Curl".toList
    type := some "dumbbell".toList
    primary_muscle_group := some "biceps".toList }

/-- An initialized cache holding the two-entry catalog of the spec's
ranking scenario. -/
def twoEntryCache : ExerciseCache :=
  { exercises := [bbEntry, dcEntry], lastUpdated := 0, isInitialized := true }

/-- An entry whose title contains a parenthesis. -/
def parenEntry : ExerciseTemplate :=
  { title := some "Curl (Machine)".toList
    type := some "machine".toList
    primary_muscle_group := some "biceps".toList }

/-- An initialized cache holding `parenEntry`. -/
def parenCache : ExerciseCache :=
  { exercises := [parenEntry], lastUpdated := 0, isInitialized := true }

/-- A page-fetch capability that always fails. -/
def failingClient : FetchPage := fun _ => .error "network down"

/-- A page-fetch capability with a single one-entry page. -/
def onePageClient : FetchPage := fun p =>
  if p == 1 then .ok { page_count := some 1, exercise_templates := some [dcEntry] }
  else .error "no such page"

/-! ## Properties of the JavaScript-set model -/

lemma mem_addJsSet {s : List Str} {x a : Str} : a ∈ addJsSet s x ↔ a ∈ s ∨ a = x := by
  unfold addJsSet
  split
  · rename_i h
    constructor
    · exact Or.inl
    · rintro (h' | rfl)
      · exact h'
      · exact List.elem_iff.mp h
  · simp [List.mem_append]

lemma addJsSet_of_mem {s : List Str} {x : Str} (h : x ∈ s) : addJsSet s x = s := by
  unfold addJsSet
  rw [if_pos (List.elem_iff.mpr h)]

lemma addJsSet_of_not_mem {s : List Str} {x : Str} (h : x ∉ s) : addJsSet s x = s ++ [x] := by
  unfold addJsSet
  rw [if_neg (fun hc => h (List.elem_iff.mp hc))]

lemma addJsSet_idem (s : List Str) (x : Str) : addJsSet (addJsSet s x) x = addJsSet s x :=
  addJsSet_of_mem (mem_addJsSet.mpr (Or.inr rfl))

lemma nodup_addJsSet {s : List Str} {x : Str} (h : s.Nodup) : (addJsSet s x).Nodup := by
  by_cases hx : x ∈ s
  · rw [addJsSet_of_mem hx]; exact h
  · rw [addJsSet_of_not_mem hx]
    simpa [List.nodup_append] using ⟨h, fun hmem => hx hmem⟩

lemma mem_foldl_addJsSet (l : List Str) :
    ∀ (s : List Str) (a : Str), a ∈ l.foldl addJsSet s ↔ a ∈ s ∨ a ∈ l := by
  induction l with
  | nil => intro s a; simp
  | cons x t ih =>
    intro s a
    rw [List.foldl_cons, ih, mem_addJsSet]
    constructor
    · rintro ((h | rfl) | h)
      · exact Or.inl h
      · exact Or.inr (List.mem_cons_self _ _)
      · exact Or.inr (List.mem_cons_of_mem _ h)
    · rintro (h | h)
      · exact Or.inl (Or.inl h)
      · rcases List.mem_cons.mp h with rfl | h'
        · exact Or.inl (Or.inr rfl)
        · exact Or.inr h'

lemma nodup_foldl_addJsSet (l : List Str) :
    ∀ (s : List Str), s.Nodup → (l.foldl addJsSet s).Nodup := by
  induction l with
  | nil => intro s h; simpa using h
  | cons x t ih => intro s h; exact ih _ (nodup_addJsSet h)

lemma mem_jsSetOf {l : List Str} {a : Str} : a ∈ jsSetOf l ↔ a ∈ l := by
  unfold jsSetOf
  rw [mem_foldl_addJsSet]
  simp

lemma nodup_jsSetOf (l : List Str) : (jsSetOf l).Nodup :=
  nodup_foldl_addJsSet l [] List.nodup_nil

lemma filter_foldl_addJsSet (p : Str → Bool) (l : List Str) :
    ∀ (s : List Str), (∀ y ∈ l, p y = true → y ∈ s) →
      (l.foldl addJsSet s).filter p = s.filter p := by
  induction l with
  | nil => intro s _; rfl
  | cons x t ih =>
    intro s h
    rw [List.foldl_cons]
    by_cases hx : x ∈ s
    · rw [addJsSet_of_mem hx]
      exact ih s (fun y hy => h y (List.mem_cons_of_mem _ hy))
    · rw [addJsSet_of_not_mem hx]
      have hpx : p x = false := by
        cases hpx : p x with
        | false => rfl
        | true => exact absurd (h x (List.mem_cons_self _ _) hpx) hx
      rw [ih (s ++ [x]) ?_, List.filter_append]
      · simp [hpx]
      · intro y hy hpy
        exact List.mem_append_left _ (h y (List.mem_cons_of_mem _ hy) hpy)

/-! ## Properties of synonym expansion -/

lemma expand_nodup (tokens : List Str) : (expandTokensWithSynonyms tokens).Nodup :=
  nodup_jsSetOf _

lemma mem_expand_of_mem {tokens : List Str} {t : Str} (h : t ∈ tokens) :
    t ∈ expandTokensWithSynonyms tokens := by
  unfold expandTokensWithSynonyms
  exact mem_jsSetOf.mpr (List.mem_append_left _ h)

lemma mem_expand_sub {tokens : List Str} {t : Str}
    (h : t ∈ expandTokensWithSynonyms tokens) : t ∈ tokens ∨ t ∈ synonymUniverse := by
  unfold expandTokensWithSynonyms at h
  rcases List.mem_append.mp (mem_jsSetOf.mp h) with h' | h'
  · exact Or.inl h'
  · right
    rcases List.mem_flatMap.mp h' with ⟨tok, _, hin⟩
    rcases List.mem_flatMap.mp hin with ⟨e, he, hte⟩
    refine List.mem_flatMap.mpr ⟨e, he, ?_⟩
    by_cases hc : (tok == e.1 || (e.2).contains tok) = true
    · rw [if_pos hc] at hte; exact hte
    · rw [if_neg hc] at hte; cases hte

lemma universe_safe : ∀ t ∈ synonymUniverse, regexCtorOk t = true := by decide

lemma expand_safe {tokens : List Str} (h : ∀ t ∈ tokens, regexCtorOk t = true) :
    ∀ t ∈ expandTokensWithSynonyms tokens, regexCtorOk t = true := by
  intro t ht
  rcases mem_expand_sub ht with h' | h'
  · exact h t h'
  · exact universe_safe t h'

lemma expand_filter_contains (tokens : List Str) (q : Str → Bool) :
    (expandTokensWithSynonyms tokens).filter (fun t => tokens.contains t && q t) =
      (jsSetOf tokens).filter q := by
  unfold expandTokensWithSynonyms jsSetOf
  rw [List.foldl_append]
  rw [filter_foldl_addJsSet _ _ _ ?_]
  · refine List.filter_congr ?_
    intro t ht
    have hmem : t ∈ tokens := by
      have := mem_foldl_addJsSet tokens [] t |>.mp ht
      simpa using this
    have hc : tokens.contains t = true := List.elem_iff.mpr hmem
    show (tokens.contains t && q t) = q t
    rw [hc, Bool.true_and]
  · intro y hy hq
    rcases List.mem_flatMap.mp hy with ⟨tok, _, _⟩
    have hmem : y ∈ tokens := List.elem_iff.mp (Bool.and_elim_left hq)
    exact (mem_foldl_addJsSet tokens [] y).mpr (Or.inr hmem)

/-! ## The scoring loop computes the spec's per-token sums -/

/-- The net effect of one loop iteration on the `originalTokenMatches` set. -/
def condAdd (title typ primary : Str) (secondary : List Str) (tokens : List Str)
    (m : List Str) (t : Str) : List Str :=
  if tokens.contains t && fieldsMatch title typ primary secondary t then addJsSet m t else m

lemma scoreStep_eq (title typ primary : Str) (secondary : List Str) (tokens : List Str)
    (st : ScoreState) (token : Str)
    (hok : strIncludes title token = false ∨ regexCtorOk token = true) :
    scoreStep title typ primary secondary tokens st token =
      .ok ⟨st.score + tokenScore title typ primary secondary tokens token,
           condAdd title typ primary secondary tokens st.matched token⟩ := by
  unfold scoreStep tokenScore condAdd fieldsMatch
  have hguard : (strIncludes title token && !regexCtorOk token) = false := by
    rcases hok with h | h <;> simp [h]
  rw [if_neg (by simp [hguard])]
  refine congrArg Except.ok ?_
  refine congrArg₂ ScoreState.mk ?_ ?_
  · dsimp only
    ring
  · dsimp only
    by_cases h1 : token ∈ tokens <;>
      by_cases h2 : strIncludes title token = true <;>
        by_cases h3 : strIncludes typ token = true <;>
          by_cases h4 : strIncludes primary token = true <;>
            by_cases h5 : secondary.any (fun muscle => strIncludes muscle token) = true <;>
              simp [List.elem_iff, h1, h2, h3, h4, h5, addJsSet_idem]

lemma foldlM_scoreStep (title typ primary : Str) (secondary : List Str) (tokens : List Str) :
    ∀ (l : List Str) (st : ScoreState),
      (∀ t ∈ l, strIncludes title t = false ∨ regexCtorOk t = true) →
      l.foldlM (scoreStep title typ primary secondary tokens) st =
        .ok ⟨st.score + (l.map (tokenScore title typ primary secondary tokens)).sum,
             l.foldl (condAdd title typ primary secondary tokens) st.matched⟩ := by
  intro l
  induction l with
  | nil =>
    intro st _
    cases st
    simp only [List.foldlM_nil, List.map_nil, List.sum_nil, List.foldl_nil, add_zero]
    rfl
  | cons t l ih =>
    intro st h
    rw [List.foldlM_cons, scoreStep_eq _ _ _ _ _ _ _ (h t (List.mem_cons_self _ _))]
    show List.foldlM (scoreStep title typ primary secondary tokens)
      ⟨st.score + tokenScore title typ primary secondary tokens t,
        condAdd title typ primary secondary tokens st.matched t⟩ l = _
    rw [ih _ (fun u hu => h u (List.mem_cons_of_mem _ hu))]
    refine congrArg Except.ok ?_
    refine congrArg₂ ScoreState.mk ?_ ?_
    · dsimp only
      rw [List.map_cons, List.sum_cons]
      ring
    · rw [List.foldl_cons]

lemma scoreLoop_eq (e : ExerciseTemplate) (tokens : List Str)
    (hsafe : ∀ t ∈ tokens, regexCtorOk t = true) :
    scoreLoop e tokens =
      .ok ⟨((expandTokensWithSynonyms tokens).map (specTokenScore e tokens)).sum,
           (expandTokensWithSynonyms tokens).foldl
             (condAdd (lowerStr (e.title.getD [])) (lowerStr (e.type.getD []))
               (lowerStr (e.primary_muscle_group.getD []))
               ((e.secondary_muscle_groups.getD []).map lowerStr) tokens) []⟩ := by
  unfold scoreLoop
  rw [foldlM_scoreStep _ _ _ _ _ _ _
    (fun t ht => Or.inr (expand_safe hsafe t ht))]
  dsimp only
  rw [zero_add]
  rfl

lemma mem_foldl_condAdd (title typ primary : Str) (secondary : List Str) (tokens : List Str)
    (l : List Str) :
    ∀ (m : List Str) (a : Str),
      a ∈ l.foldl (condAdd title typ primary secondary tokens) m ↔
        a ∈ m ∨ (a ∈ l ∧ (tokens.contains a && fieldsMatch title typ primary secondary a) = true) := by
  induction l with
  | nil => intro m a; simp
  | cons t l ih =>
    intro m a
    rw [List.foldl_cons, ih]
    unfold condAdd
    constructor
    · rintro (h | h)
      · split at h
        · rcases mem_addJsSet.mp h with h' | rfl
          · exact Or.inl h'
          · rename_i hc
            exact Or.inr ⟨List.mem_cons_self _ _, hc⟩
        · exact Or.inl h
      · exact Or.inr ⟨List.mem_cons_of_mem _ h.1, h.2⟩
    · rintro (h | ⟨hmem, hc⟩)
      · left
        split
        · exact mem_addJsSet.mpr (Or.inl h)
        · exact h
      · rcases List.mem_cons.mp hmem with rfl | h'
        · left
          rw [if_pos hc]
          exact mem_addJsSet.mpr (Or.inr rfl)
        · exact Or.inr ⟨h', hc⟩

lemma length_foldl_condAdd (title typ primary : Str) (secondary : List Str) (tokens : List Str)
    (l : List Str) :
    ∀ (m : List Str), l.Nodup → (∀ t ∈ l, t ∉ m) →
      (l.foldl (condAdd title typ primary secondary tokens) m).length =
        m.length +
          (l.filter (fun t => tokens.contains t && fieldsMatch title typ primary secondary t)).length := by
  induction l with
  | nil => intro m _ _; simp
  | cons t l ih =>
    intro m hnd hdisj
    have hnd' := (List.nodup_cons.mp hnd).2
    have htnotin := (List.nodup_cons.mp hnd).1
    rw [List.foldl_cons, List.filter_cons]
    by_cases hc : (tokens.contains t && fieldsMatch title typ primary secondary t) = true
    · have hstep : condAdd title typ primary secondary tokens m t = addJsSet m t := by
        unfold condAdd
        rw [if_pos hc]
      have hm : t ∉ m := hdisj t (List.mem_cons_self _ _)
      rw [hstep, if_pos hc, ih (addJsSet m t) hnd' ?_]
      · rw [addJsSet_of_not_mem hm]
        simp only [List.length_append, List.length_cons, List.length_nil]
        omega
      · intro u hu
        rw [mem_addJsSet]
        rintro (h' | rfl)
        · exact hdisj u (List.mem_cons_of_mem _ hu) h'
        · exact htnotin hu
    · have hstep : condAdd title typ primary secondary tokens m t = m := by
        unfold condAdd
        rw [if_neg hc]
      rw [hstep, if_neg hc]
      exact ih m hnd' (fun u hu => hdisj u (List.mem_cons_of_mem _ hu))

lemma matched_len_eq (e : ExerciseTemplate) (tokens : List Str) :
    ((expandTokensWithSynonyms tokens).foldl
        (condAdd (lowerStr (e.title.getD [])) (lowerStr (e.type.getD []))
          (lowerStr (e.primary_muscle_group.getD []))
          ((e.secondary_muscle_groups.getD []).map lowerStr) tokens) []).length =
      specCovered e tokens := by
  rw [length_foldl_condAdd _ _ _ _ _ _ [] (expand_nodup tokens)
    (fun t _ => List.not_mem_nil t)]
  simp only [List.length_nil, Nat.zero_add]
  rw [expand_filter_contains tokens
    (fun t => fieldsMatch (lowerStr (e.title.getD [])) (lowerStr (e.type.getD []))
      (lowerStr (e.primary_muscle_group.getD []))
      ((e.secondary_muscle_groups.getD []).map lowerStr) t)]
  rfl

/-- The loop-based `calculateSearchScore` of the code computes exactly the
spec's closed-form score, whenever every token can be turned into a
word-boundary regex. -/
lemma calculateSearchScore_eq_spec (e : ExerciseTemplate) (tokens : List Str)
    (hsafe : ∀ t ∈ tokens, regexCtorOk t = true) :
    calculateSearchScore e tokens = .ok (specScore e tokens) := by
  unfold calculateSearchScore
  rw [scoreLoop_eq e tokens hsafe]
  show Except.ok _ = _
  unfold specScore
  refine congrArg Except.ok ?_
  dsimp only
  rw [matched_len_eq e tokens]

/-! ## The sort model: permutation, descending order, stability -/

lemma insertTail_perm {α : Type _} (key : α → ℚ) (x : α) :
    ∀ l : List α, List.Perm (insertTail key x l) (x :: l) := by
  intro l
  induction l with
  | nil => exact List.Perm.refl _
  | cons y ys ih =>
    unfold insertTail
    split
    · exact List.Perm.refl _
    · exact (List.Perm.cons y ih).trans (List.Perm.swap x y ys)

lemma foldl_insertTail_perm {α : Type _} (key : α → ℚ) :
    ∀ (l acc : List α),
      List.Perm (l.foldl (fun a x => insertTail key x a) acc) (acc ++ l) := by
  intro l
  induction l with
  | nil => intro acc; simp
  | cons x t ih =>
    intro acc
    rw [List.foldl_cons]
    refine (ih (insertTail key x acc)).trans ?_
    refine ((insertTail_perm key x acc).append_right t).trans ?_
    exact List.perm_middle.symm

lemma sortDesc_perm {α : Type _} (key : α → ℚ) (l : List α) :
    List.Perm (sortDesc key l) l :=
  foldl_insertTail_perm key l []

lemma pairwise_insertTail {α : Type _} (key : α → ℚ) (x : α) :
    ∀ {l : List α}, l.Pairwise (fun a b => key b ≤ key a) →
      (insertTail key x l).Pairwise (fun a b => key b ≤ key a) := by
  intro l
  induction l with
  | nil => intro _; simp [insertTail]
  | cons y ys ih =>
    intro h
    rcases List.pairwise_cons.mp h with ⟨hy, hys⟩
    unfold insertTail
    split
    · rename_i hlt
      refine List.pairwise_cons.mpr ⟨?_, h⟩
      intro z hz
      rcases List.mem_cons.mp hz with rfl | hz'
      · exact le_of_lt hlt
      · exact (hy z hz').trans (le_of_lt hlt)
    · rename_i hnlt
      refine List.pairwise_cons.mpr ⟨?_, ih hys⟩
      intro z hz
      have hz' := (insertTail_perm key x ys).mem_iff.mp hz
      rcases List.mem_cons.mp hz' with rfl | hz''
      · exact le_of_not_lt hnlt
      · exact hy z hz''

lemma foldl_insertTail_pairwise {α : Type _} (key : α → ℚ) :
    ∀ (l acc : List α), acc.Pairwise (fun a b => key b ≤ key a) →
      (l.foldl (fun a x => insertTail key x a) acc).Pairwise (fun a b => key b ≤ key a) := by
  intro l
  induction l with
  | nil => intro acc h; exact h
  | cons x t ih =>
    intro acc h
    rw [List.foldl_cons]
    exact ih _ (pairwise_insertTail key x h)

lemma sortDesc_pairwise {α : Type _} (key : α → ℚ) (l : List α) :
    (sortDesc key l).Pairwise (fun a b => key b ≤ key a) :=
  foldl_insertTail_pairwise key l [] List.Pairwise.nil

lemma filter_class_eq_nil {α : Type _} (key : α → ℚ) {l : List α} {c : ℚ}
    (h : ∀ z ∈ l, key z < c) :
    l.filter (fun a => decide (key a = c)) = [] := by
  rw [List.filter_eq_nil_iff]
  intro a ha
  simp only [decide_eq_true_eq]
  exact ne_of_lt (h a ha)

lemma insertTail_filter {α : Type _} (key : α → ℚ) (x : α) (s : ℚ) :
    ∀ {l : List α}, l.Pairwise (fun a b => key b ≤ key a) →
      (insertTail key x l).filter (fun a => decide (key a = s)) =
        (if key x = s then l.filter (fun a => decide (key a = s)) ++ [x]
         else l.filter (fun a => decide (key a = s))) := by
  intro l
  induction l with
  | nil =>
    intro _
    by_cases hx : key x = s <;> simp [insertTail, hx]
  | cons y ys ih =>
    intro h
    rcases List.pairwise_cons.mp h with ⟨hy, hys⟩
    unfold insertTail
    split
    · rename_i hlt
      by_cases hx : key x = s
      · have hnil : (y :: ys).filter (fun a => decide (key a = s)) = [] := by
          apply filter_class_eq_nil key
          intro z hz
          rcases List.mem_cons.mp hz with rfl | hz'
          · exact hx ▸ hlt
          · exact lt_of_le_of_lt (hy z hz') (hx ▸ hlt)
        rw [if_pos hx, hnil, List.filter_cons_of_pos (by simp [hx]), hnil, List.nil_append]
      · rw [if_neg hx, List.filter_cons_of_neg (by simp [hx])]
    · rename_i hnlt
      by_cases hyc : key y = s
      · rw [List.filter_cons_of_pos (by simp [hyc]), ih hys,
          List.filter_cons_of_pos (by simp [hyc])]
        by_cases hx : key x = s
        · rw [if_pos hx, if_pos hx, List.cons_append]
        · rw [if_neg hx, if_neg hx]
      · rw [List.filter_cons_of_neg (by simp [hyc]), ih hys,
          List.filter_cons_of_neg (by simp [hyc])]

lemma foldl_insertTail_filter {α : Type _} (key : α → ℚ) (s : ℚ) :
    ∀ (l acc : List α), acc.Pairwise (fun a b => key b ≤ key a) →
      (l.foldl (fun a x => insertTail key x a) acc).filter (fun a => decide (key a = s)) =
        acc.filter (fun a => decide (key a = s)) ++ l.filter (fun a => decide (key a = s)) := by
  intro l
  induction l with
  | nil => intro acc _; simp
  | cons x t ih =>
    intro acc hacc
    rw [List.foldl_cons, ih _ (pairwise_insertTail key x hacc), insertTail_filter key x s hacc]
    by_cases hx : key x = s
    · rw [if_pos hx, List.filter_cons_of_pos (by simp [hx]), List.append_assoc,
        List.singleton_append]
    · rw [if_neg hx, List.filter_cons_of_neg (by simp [hx])]

lemma sortDesc_filter {α : Type _} (key : α → ℚ) (l : List α) (s : ℚ) :
    (sortDesc key l).filter (fun a => decide (key a = s)) =
      l.filter (fun a => decide (key a = s)) := by
  unfold sortDesc
  rw [foldl_insertTail_filter key s l [] List.Pairwise.nil]
  rfl

/-! ## Evaluating the search pipeline -/

lemma mapM_ok {ε α β : Type _} (f : α → Except ε β) (g : α → β) :
    ∀ l : List α, (∀ a ∈ l, f a = .ok (g a)) → l.mapM f = .ok (l.map g) := by
  intro l
  induction l with
  | nil => intro _; rfl
  | cons a t ih =>
    intro h
    rw [List.mapM_cons, h a (List.mem_cons_self _ _),
      ih (fun b hb => h b (List.mem_cons_of_mem _ hb))]
    rfl

lemma scoredAndRanked_eq (exercises : List ExerciseTemplate) (tokens : List Str)
    (hsafe : ∀ t ∈ tokens, regexCtorOk t = true) :
    scoredAndRanked exercises tokens =
      .ok ((sortDesc Prod.snd ((exercises.map (fun e => (e, specScore e tokens))).filter
        (fun item => decide (0 < item.2)))).map Prod.fst) := by
  unfold scoredAndRanked
  rw [mapM_ok _ (fun e => (e, specScore e tokens)) exercises ?_]
  · rfl
  · intro e _
    rw [show (do
        let s ← calculateSearchScore e tokens
        pure (e, s) : Except JsErr (ExerciseTemplate × ℚ)) =
      Except.map (fun s => (e, s)) (calculateSearchScore e tokens) from ?_]
    · rw [calculateSearchScore_eq_spec e tokens hsafe]
      rfl
    · cases calculateSearchScore e tokens <;> rfl

lemma searchCore_not_init {cache : ExerciseCache} (query : Str)
    (h : cache.isInitialized = false) :
    searchCore cache query = .error JsErr.notInitialized := by
  unfold searchCore
  rw [h]
  rfl

lemma searchCore_empty {cache : ExerciseCache} {query : Str}
    (hinit : cache.isInitialized = true) (hempty : trimStr (lowerStr query) = []) :
    searchCore cache query = .ok cache.exercises := by
  unfold searchCore
  rw [hinit, hempty]
  rfl

lemma searchCore_nonempty {cache : ExerciseCache} {query : Str}
    (hinit : cache.isInitialized = true) (hne : (trimStr (lowerStr query)).isEmpty = false) :
    searchCore cache query =
      scoredAndRanked cache.exercises (tokenize (trimStr (lowerStr query))) := by
  unfold searchCore
  rw [hinit]
  show (if (trimStr (lowerStr query)).isEmpty = true then pure cache.exercises
      else scoredAndRanked cache.exercises (tokenize (trimStr (lowerStr query)))) = _
  rw [hne]
  rfl

lemma searchExercises_ok {cache : ExerciseCache} {query : Str} {r : List ExerciseTemplate}
    (h : searchCore cache query = .ok r) (options : SearchOptions) :
    searchExercises cache query options =
      .ok (typePass options.exerciseType (musclePass options.muscleGroup r)) := by
  unfold searchExercises
  rw [h]
  rfl

lemma searchExercises_error {cache : ExerciseCache} {query : Str} {e : JsErr}
    (h : searchCore cache query = .error e) (options : SearchOptions) :
    searchExercises cache query options = .error e := by
  unfold searchExercises
  rw [h]
  rfl

lemma init_ok_isInitialized {now commit : Int} {client : FetchPage} {force : Bool}
    {cache c : ExerciseCache} {tr : List Nat}
    (h : initializeCache now commit client force cache = (c, tr, .ok ())) :
    c.isInitialized = true := by
  unfold initializeCache at h
  dsimp only at h
  split at h
  · rename_i hcond
    injection h with h1 h2
    rw [← h1]
    exact (Bool.and_eq_true _ _ |>.mp ((Bool.and_eq_true _ _ |>.mp hcond).1)).1
  · split at h
    · exact absurd (congrArg (fun p => p.2.2) h) (by simp)
    · injection h with h1 h2
      rw [← h1]

/-! ## The claims -/

/-- Claim C3: if any page fetch during a refresh fails (at any page, including
the first), the whole refresh aborts: the cache state is exactly what it was
before the call — the previously committed snapshot is preserved untouched
and the accumulated buffer is never committed — and `initializeCache` raises
an initialization error whose message wraps the underlying error's
message. (`doRefresh` returns `.error e` exactly when some requested page
fetch rejects with `e`.) -/
theorem claim_C3_refresh_abort (now commitTime : Int) (client : FetchPage)
    (forceRefresh : Bool) (cache : ExerciseCache) (e : String)
    (hslow : (cache.isInitialized && !(decide (now - cache.lastUpdated > CACHE_TTL))
        && !forceRefresh) = false)
    (hfail : (doRefresh client).2 = .error e) :
    initializeCache now commitTime client forceRefresh cache =
      (cache, (doRefresh client).1, .error ("Failed to initialize exercise cache: " ++ e)) := by
  rcases hdr : doRefresh client with ⟨tr, r⟩
  rw [hdr] at hfail
  have hr : r = Except.error e := hfail
  subst hr
  unfold initializeCache
  dsimp only
  rw [hslow, hdr]
  rfl

/-- Witness for claim C3: a client whose very first page fetch fails leaves the
initial cache untouched and reports the wrapped message. -/
theorem claim_C3_witness :
    initializeCache 0 0 failingClient false initialCache =
      (initialCache, [1], .error "Failed to initialize exercise cache: network down") :=
  claim_C3_refresh_abort 0 0 failingClient false initialCache "network down" rfl rfl

/-- Claim C4: there is an initialized cache state and a query on which
`searchExercises` throws an error that is not `notInitialized`: the query
token `(` occurs as a substring of the entry's lowercased title, so the
word-boundary check builds a regex from the unescaped token and raises a
syntax error instead of returning a result list. -/
theorem claim_C4_regex_error :
    strIncludes (lowerStr (parenEntry.title.getD [])) "(".toList = true ∧
    parenCache.isInitialized = true ∧
    searchExercises parenCache "(".toList {} = .error JsErr.badRegex ∧
    JsErr.badRegex ≠ JsErr.notInitialized :=
  ⟨rfl, rfl, rfl, fun h => JsErr.noConfusion h⟩

/-- Claim C7: a second `initializeCache` call without `forceRefresh`, made
after a successful call and within the TTL window, is observable as a no-op:
it requests no page at all (empty fetch trace) and returns the cache state
unchanged. -/
theorem claim_C7_idempotent (now1 commit1 now2 commit2 : Int) (client : FetchPage)
    (cache0 c1 : ExerciseCache) (tr1 : List Nat)
    (h1 : initializeCache now1 commit1 client false cache0 = (c1, tr1, .ok ()))
    (hfresh : ¬(now2 - c1.lastUpdated > CACHE_TTL)) :
    initializeCache now2 commit2 client false c1 = (c1, [], .ok ()) := by
  have hinit := init_ok_isInitialized h1
  unfold initializeCache
  dsimp only
  rw [hinit, decide_eq_false hfresh]
  rfl

/-- Witness for claim C7: after a successful one-page refresh at time 5, a
second call at time 10 touches neither the network nor the state. -/
theorem claim_C7_witness :
    initializeCache 10 20 onePageClient false
        { exercises := [dcEntry], lastUpdated := 5, isInitialized := true } =
      ({ exercises := [dcEntry], lastUpdated := 5, isInitialized := true }, [], .ok ()) :=
  claim_C7_idempotent 0 5 10 20 onePageClient initialCache _ [1] rfl (by decide)

/-- Claim C8: a query that is empty or whitespace-only after lowercasing and
trimming skips scoring entirely: with no filters the full catalog is
returned in snapshot order, and provided filters still apply to that
unscored list. -/
theorem claim_C8_empty_query (cache : ExerciseCache) (query : Str) (options : SearchOptions)
    (hinit : cache.isInitialized = true) (hempty : trimStr (lowerStr query) = []) :
    searchExercises cache query options =
        .ok (typePass options.exerciseType (musclePass options.muscleGroup cache.exercises)) ∧
      searchExercises cache query {} = .ok cache.exercises := by
  have hc := searchCore_empty hinit hempty
  exact ⟨searchExercises_ok hc options, searchExercises_ok hc {}⟩

/-- Witness for claim C8: a whitespace-only query returns the whole two-entry
catalog, and a muscle-group filter still applies to it. -/
theorem claim_C8_witness :
    searchExercises twoEntryCache "   ".toList { muscleGroup := some "biceps".toList } =
        .ok [dcEntry] ∧
      searchExercises twoEntryCache "   ".toList {} = .ok [bbEntry, dcEntry] := by
  have h := claim_C8_empty_query twoEntryCache "   ".toList
    { muscleGroup := some "biceps".toList } rfl rfl
  exact ⟨h.1, h.2⟩

/-- Claim C9: the `muscleGroup` filter (case-insensitive equality on the
primary or any secondary muscle group) and then the `exerciseType` filter
(case-insensitive equality on the type) are applied as a final pass, in that
order, over the scored-and-sorted (or unscored) result list, preserving its
relative order — the filtered results are exactly `List.filter` of the
unfiltered results. -/
theorem claim_C9_filter_pass (cache : ExerciseCache) (query : Str) (mg t : Str)
    (base : List ExerciseTemplate)
    (hbase : searchExercises cache query {} = .ok base)
    (hmg : mg.isEmpty = false) (ht : t.isEmpty = false) :
    searchExercises cache query { muscleGroup := some mg, exerciseType := some t } =
        .ok (exerciseTypeFilter t (muscleGroupFilter mg base)) ∧
      searchExercises cache query { muscleGroup := some mg } =
        .ok (muscleGroupFilter mg base) ∧
      searchExercises cache query { exerciseType := some t } =
        .ok (exerciseTypeFilter t base) ∧
      (∀ e, e ∈ muscleGroupFilter mg base ↔ e ∈ base ∧ matchesMuscleGroup mg e = true) ∧
      (∀ e, e ∈ exerciseTypeFilter t base ↔ e ∈ base ∧ matchesExerciseType t e = true) := by
  cases hsc : searchCore cache query with
  | error err =>
    rw [searchExercises_error hsc {}] at hbase
    exact absurd hbase (by simp)
  | ok r =>
    have hb := searchExercises_ok hsc {}
    rw [hb] at hbase
    have hr : r = base := by
      have := Except.ok.inj hbase
      exact this
    subst hr
    refine ⟨?_, ?_, ?_, ?_, ?_⟩
    · rw [searchExercises_ok hsc]
      unfold musclePass typePass
      dsimp only
      rw [hmg, ht]
      rfl
    · rw [searchExercises_ok hsc]
      unfold musclePass typePass
      dsimp only
      rw [hmg]
      rfl
    · rw [searchExercises_ok hsc]
      unfold musclePass typePass
      dsimp only
      rw [ht]
      rfl
    · intro e
      exact List.mem_filter
    · intro e
      exact List.mem_filter

unseal Rat.add Rat.mul Rat.inv in
/-- Witness for claim C9: on the two-entry catalog, `"curl"` ranks only the
curl entry and both filters keep exactly it. -/
theorem claim_C9_witness :
    searchExercises twoEntryCache "curl".toList
        { muscleGroup := some "biceps".toList, exerciseType := some "dumbbell".toList } =
      .ok [dcEntry] := by
  have h := claim_C9_filter_pass twoEntryCache "curl".toList "biceps".toList
    "dumbbell".toList [dcEntry] (by rfl) rfl rfl
  exact h.1

/-- Claim C10: `getCachedExercises` fails with `notInitialized` exactly when
the ready flag is false, returns the snapshot's items otherwise, and after
`clearCache` resets the state it fails with `notInitialized`. -/
theorem claim_C10_get_cached (cache : ExerciseCache) :
    (getCachedExercises cache = .error JsErr.notInitialized ↔ cache.isInitialized = false) ∧
    (cache.isInitialized = true → getCachedExercises cache = .ok cache.exercises) ∧
    getCachedExercises (clearCache cache) = .error JsErr.notInitialized := by
  cases h : cache.isInitialized <;>
    simp [getCachedExercises, clearCache, h]

/-- Witness for claim C10: reading the ready two-entry cache succeeds; after a
clear, reading fails. -/
theorem claim_C10_witness :
    getCachedExercises twoEntryCache = .ok [bbEntry, dcEntry] ∧
    getCachedExercises (clearCache twoEntryCache) = .error JsErr.notInitialized :=
  ⟨(claim_C10_get_cached twoEntryCache).2.1 rfl, (claim_C10_get_cached twoEntryCache).2.2⟩

unseal Rat.add Rat.mul Rat.inv in
/-- Counterexample to claim C1: take the entry "Dumbbell Curl" and the single
original token `db`. The expansion `dumbbell` of `db` does match the title,
so the claim as stated counts `db` as covered (coverage 1 of 1); but `db`
itself matches no field, the code's matched set after the loop is empty
(coverage 0), and the proportional penalty collapses the final score to 0. -/
theorem claim_C1_counterexample :
    "dumbbell".toList ∈ expandTokensWithSynonyms ["db".toList] ∧
    strIncludes (lowerStr (dcEntry.title.getD [])) "dumbbell".toList = true ∧
    anyFieldMatch dcEntry "db".toList = false ∧
    scoreLoop dcEntry ["db".toList] = .ok ⟨115, []⟩ ∧
    calculateSearchScore dcEntry ["db".toList] = .ok 0 :=
  ⟨by decide, rfl, rfl, by rfl, by rfl⟩

/-- Claim C1 as amended: an original token is counted toward the covered count
exactly when the token itself — not merely one of its synonym expansions —
matches some scored field: after the scoring loop, the matched set holds
precisely the original tokens `t` with `anyFieldMatch e t`, and its size is
the number of distinct original tokens that themselves match. -/
theorem claim_C1_covered_amended (e : ExerciseTemplate) (tokens : List Str)
    (hsafe : ∀ t ∈ tokens, regexCtorOk t = true) :
    ∃ st, scoreLoop e tokens = .ok st ∧
      (∀ t, t ∈ st.matched ↔ t ∈ tokens ∧ anyFieldMatch e t = true) ∧
      st.matched.length = specCovered e tokens := by
  refine ⟨_, scoreLoop_eq e tokens hsafe, ?_, matched_len_eq e tokens⟩
  intro t
  rw [mem_foldl_condAdd]
  constructor
  · rintro (h | ⟨_, hc⟩)
    · exact absurd h (List.not_mem_nil t)
    · have hands := Bool.and_eq_true _ _ |>.mp hc
      exact ⟨List.elem_iff.mp hands.1, hands.2⟩
  · rintro ⟨hmem, hf⟩
    refine Or.inr ⟨mem_expand_of_mem hmem, ?_⟩
    have hf' : fieldsMatch (lowerStr (e.title.getD [])) (lowerStr (e.type.getD []))
        (lowerStr (e.primary_muscle_group.getD []))
        ((e.secondary_muscle_groups.getD []).map lowerStr) t = true := hf
    have hc : tokens.contains t = true := List.elem_iff.mpr hmem
    rw [hc, hf']
    rfl

/-- Witness for the amended claim C1 at the counterexample's input: for
`"Dumbbell Curl"` and token list `["db"]`, the matched set holds exactly the
original tokens that themselves match a field. -/
theorem claim_C1_witness :
    ∃ st, scoreLoop dcEntry ["db".toList] = .ok st ∧
      (∀ t, t ∈ st.matched ↔ t ∈ ["db".toList] ∧ anyFieldMatch dcEntry t = true) ∧
      st.matched.length = specCovered dcEntry ["db".toList] :=
  claim_C1_covered_amended dcEntry ["db".toList] (by decide)

unseal Rat.add Rat.mul Rat.inv in
/-- Counterexample to claim C2: on the spec's two-entry catalog,
`search("bb press")` gives "Dumbbell Curl" the score 105/2 — not 0 — because
the original token `bb` occurs inside "dumbbell"; so "Dumbbell Curl" does
appear in the results. -/
theorem claim_C2_counterexample :
    calculateSearchScore dcEntry ["bb".toList, "press".toList] = .ok (105 / 2) ∧
    (105 / 2 : ℚ) ≠ 0 ∧
    searchExercises twoEntryCache "bb press".toList {} = .ok [bbEntry, dcEntry] ∧
    dcEntry ∈ [bbEntry, dcEntry] :=
  ⟨by rfl, by norm_num, by rfl, by decide⟩

unseal Rat.add Rat.mul Rat.inv in
/-- Claim C2 as amended: `search("bb press")` ranks "Barbell Bench Press"
(score 150) above "Dumbbell Curl" (score 105/2); both scores are positive,
so the result is exactly ["Barbell Bench Press", "Dumbbell Curl"], in that
order. -/
theorem claim_C2_ranking_amended :
    searchExercises twoEntryCache "bb press".toList {} = .ok [bbEntry, dcEntry] ∧
    calculateSearchScore bbEntry ["bb".toList, "press".toList] = .ok 150 ∧
    calculateSearchScore dcEntry ["bb".toList, "press".toList] = .ok (105 / 2) ∧
    (105 / 2 : ℚ) < 150 ∧ (0 : ℚ) < 105 / 2 :=
  ⟨by rfl, by rfl, by rfl, by norm_num, by norm_num⟩

/-- Claim C5: for every catalog entry and non-empty token list whose tokens
form valid word-boundary regexes, the code's relevance score is exactly the
spec's formula: the per-token field scores (100/60, 50/30, the position
bonus, 40/25, 30/20, 20/10) summed over the deduplicated expanded token set,
multiplied by covered/total when covered < total, plus 50 when covered =
total > 1, plus 200 on a full-phrase title hit, in that order. -/
theorem claim_C5_score_formula (e : ExerciseTemplate) (tokens : List Str)
    (_hne : tokens ≠ []) (hsafe : ∀ t ∈ tokens, regexCtorOk t = true) :
    calculateSearchScore e tokens = .ok (specScore e tokens) :=
  calculateSearchScore_eq_spec e tokens hsafe

/-- Witness for claim C5 on the two-token query `bb press` against
"Barbell Bench Press". -/
theorem claim_C5_witness :
    (["bb".toList, "press".toList] ≠ ([] : List Str)) ∧
    calculateSearchScore bbEntry ["bb".toList, "press".toList] =
      .ok (specScore bbEntry ["bb".toList, "press".toList]) :=
  ⟨by decide, claim_C5_score_formula bbEntry ["bb".toList, "press".toList]
    (by decide) (by decide)⟩

lemma mem_musclePass {mg : Option Str} {r : List ExerciseTemplate} {x : ExerciseTemplate}
    (h : x ∈ musclePass mg r) : x ∈ r := by
  cases mg with
  | none => exact h
  | some m =>
    have hrw : musclePass (some m) r = if m.isEmpty then r else muscleGroupFilter m r := rfl
    rw [hrw] at h
    split at h
    · exact h
    · exact (List.mem_filter.mp h).1

lemma mem_typePass {t : Option Str} {r : List ExerciseTemplate} {x : ExerciseTemplate}
    (h : x ∈ typePass t r) : x ∈ r := by
  cases t with
  | none => exact h
  | some ty =>
    have hrw : typePass (some ty) r = if ty.isEmpty then r else exerciseTypeFilter ty r := rfl
    rw [hrw] at h
    split at h
    · exact h
    · exact (List.mem_filter.mp h).1

lemma map_fst_pair {β : Type _} (f : ExerciseTemplate → β) (l : List ExerciseTemplate) :
    (l.map (fun e => (e, f e))).map Prod.fst = l := by
  induction l with
  | nil => rfl
  | cons a t ih => simp [ih]

/-- Claim C6: for a non-empty query whose tokens form valid regexes, the
pre-filter result of `searchExercises` contains exactly the snapshot entries
with positive score (a permutation of the positive-score filter of the
snapshot), ordered by score descending, with equal-score entries in
snapshot order (the class of each positive score is preserved verbatim);
and any filtered result is a subset of that list. -/
theorem claim_C6_ranking (cache : ExerciseCache) (query : Str)
    (hinit : cache.isInitialized = true)
    (hne : (trimStr (lowerStr query)).isEmpty = false)
    (hsafe : ∀ t ∈ tokenize (trimStr (lowerStr query)), regexCtorOk t = true) :
    ∃ L, searchExercises cache query {} = .ok L ∧
      List.Perm L (cache.exercises.filter
        (fun e => decide (0 < specScore e (tokenize (trimStr (lowerStr query)))))) ∧
      L.Pairwise (fun a b =>
        specScore b (tokenize (trimStr (lowerStr query))) ≤
          specScore a (tokenize (trimStr (lowerStr query)))) ∧
      (∀ s : ℚ, 0 < s →
        L.filter (fun e => decide (specScore e (tokenize (trimStr (lowerStr query))) = s)) =
          cache.exercises.filter
            (fun e => decide (specScore e (tokenize (trimStr (lowerStr query))) = s))) ∧
      (∀ (options : SearchOptions) (M : List ExerciseTemplate),
        searchExercises cache query options = .ok M → ∀ x ∈ M, x ∈ L) := by
  have hsc : searchCore cache query =
      scoredAndRanked cache.exercises (tokenize (trimStr (lowerStr query))) :=
    searchCore_nonempty hinit hne
  have hcore := hsc.trans
    (scoredAndRanked_eq cache.exercises (tokenize (trimStr (lowerStr query))) hsafe)
  set tokens := tokenize (trimStr (lowerStr query)) with htok
  set pairs := cache.exercises.map (fun e => (e, specScore e tokens)) with hpairs
  set kept := pairs.filter (fun item => decide (0 < item.2)) with hkept
  set sorted := sortDesc Prod.snd kept with hsorted
  have hL : searchExercises cache query {} = .ok (sorted.map Prod.fst) :=
    searchExercises_ok hcore {}
  have hmem_snd : ∀ z ∈ sorted, z.2 = specScore z.1 tokens := by
    intro z hz
    have hz1 : z ∈ kept := ((sortDesc_perm Prod.snd kept).mem_iff).mp hz
    rw [hkept] at hz1
    have hz2 : z ∈ pairs := (List.mem_filter.mp hz1).1
    rw [hpairs] at hz2
    rcases List.mem_map.mp hz2 with ⟨e, _, rfl⟩
    rfl
  refine ⟨sorted.map Prod.fst, hL, ?_, ?_, ?_, ?_⟩
  · -- permutation with the positive-score filter of the snapshot
    have hkept2 : kept.map Prod.fst =
        cache.exercises.filter (fun e => decide (0 < specScore e tokens)) := by
      rw [hkept, hpairs, List.filter_map]
      exact map_fst_pair _ _
    exact (((sortDesc_perm Prod.snd kept).map Prod.fst).trans (hkept2 ▸ List.Perm.refl _))
  · -- descending order
    rw [List.pairwise_map]
    refine (sortDesc_pairwise Prod.snd kept).imp_of_mem ?_
    intro a b ha hb hab
    rw [← hmem_snd a ha, ← hmem_snd b hb]
    exact hab
  · -- stability: each positive score class is preserved verbatim
    intro s hs
    rw [List.filter_map]
    have e1 : List.filter ((fun e => decide (specScore e tokens = s)) ∘ Prod.fst) sorted =
        List.filter (fun z => decide (z.2 = s)) sorted := by
      refine List.filter_congr ?_
      intro z hz
      show decide (specScore z.1 tokens = s) = decide (z.2 = s)
      rw [hmem_snd z hz]
    have e2 : List.filter (fun z : ExerciseTemplate × ℚ => decide (z.2 = s)) sorted =
        List.filter (fun z => decide (z.2 = s)) kept := sortDesc_filter Prod.snd kept s
    have e3 : List.filter (fun z : ExerciseTemplate × ℚ => decide (z.2 = s)) kept =
        List.filter (fun z => decide (z.2 = s)) pairs := by
      rw [hkept, List.filter_filter]
      refine List.filter_congr ?_
      intro z _
      by_cases hz2 : z.2 = s
      · have hzpos : decide ((0 : ℚ) < z.2) = true := by
          rw [decide_eq_true_eq]
          exact hz2 ▸ hs
        simp [hz2, hzpos, hs]
      · simp [hz2]
    have e4 : List.filter (fun z : ExerciseTemplate × ℚ => decide (z.2 = s)) pairs =
        (cache.exercises.filter (fun e => decide (specScore e tokens = s))).map
          (fun e => (e, specScore e tokens)) := by
      rw [hpairs, List.filter_map]
      rfl
    rw [e1, e2, e3, e4, map_fst_pair]
  · -- zero-score exclusion survives the filter passes
    intro options M hM x hx
    rw [searchExercises_ok hcore options] at hM
    have hMeq := Except.ok.inj hM
    rw [← hMeq] at hx
    exact mem_musclePass (mem_typePass hx)

/-- Witness for claim C6 with the query `press` on the two-entry catalog. -/
theorem claim_C6_witness :
    ∃ L, searchExercises twoEntryCache "press".toList {} = .ok L ∧
      List.Perm L (twoEntryCache.exercises.filter
        (fun e => decide (0 < specScore e (tokenize (trimStr (lowerStr "press".toList)))))) ∧
      L.Pairwise (fun a b =>
        specScore b (tokenize (trimStr (lowerStr "press".toList))) ≤
          specScore a (tokenize (trimStr (lowerStr "press".toList)))) ∧
      (∀ s : ℚ, 0 < s →
        L.filter (fun e =>
            decide (specScore e (tokenize (trimStr (lowerStr "press".toList))) = s)) =
          twoEntryCache.exercises.filter
            (fun e =>
              decide (specScore e (tokenize (trimStr (lowerStr "press".toList))) = s))) ∧
      (∀ (options : SearchOptions) (M : List ExerciseTemplate),
        searchExercises twoEntryCache "press".toList options = .ok M → ∀ x ∈ M, x ∈ L) :=
  claim_C6_ranking twoEntryCache "press".toList rfl rfl (by decide)

end HevyMcp
